import Mathlib

/-!
Verification of the flight-ingestion core of AdventureLog.

This file gives a shallow embedding, in Lean, of the trip-grouping,
deduplication, extraction and message-normalisation algorithms of the
backend (`server/flights/grouping.py`, `models.py`, `parsers.py`,
`bs4_extractors.py`, `email_connector.py`, `smtp_server.py`), and proves
or refutes the behavioural claims made about them.

Conventions of the embedding:
- Python `datetime` instants are modelled as `Int` minutes (grouping,
  dedup, SAS extraction) or `Rat` seconds (LATAM interpolation, where the
  code divides a duration by a segment count).
- Python strings are modelled as `String` or `List Char` (for the
  character-scanning functions of `smtp_server.py` and
  `email_connector.py`).
- Database rows owned by one user are modelled as Lean lists; a Django
  queryset `order_by` is modelled by an explicit stable insertion sort.
-/

/-- One persisted flight row, reduced to the fields the grouping
algorithms of `grouping.py` and `models.py` read.  Instants are minutes. -/
structure Flight where
  departure_airport : String
  arrival_airport : String
  departure_city : String
  arrival_city : String
  booking_reference : String
  departure_datetime : Int
  arrival_datetime : Int
deriving DecidableEq

/-- Stable insertion of a flight into a list sorted by departure time:
an element with an equal key stays in front of the inserted one, matching
the stability of Python `sorted` / Django `order_by`. -/
def insertByDep (f : Flight) : List Flight → List Flight
  | [] => [f]
  | x :: xs =>
    if x.departure_datetime ≤ f.departure_datetime then x :: insertByDep f xs
    else f :: x :: xs

/-- Stable sort by `departure_datetime`, modelling
`sorted(flights, key=lambda f: f.departure_datetime)` and
`order_by('departure_datetime')`. -/
def sortByDeparture (fs : List Flight) : List Flight :=
  fs.foldl (fun acc f => insertByDep f acc) []

/-- Embeds the origin/destination computation of
`_create_group_for_flights` (grouping.py lines 98-108): the origin is the
first sorted flight's departure airport; the destination starts as the
last sorted flight's arrival airport and is overwritten by the arrival
airport of the first flight whose arrival differs from the origin.  The
merge-rename code in `_merge_overlapping_groups` (grouping.py lines
212-219) performs the identical computation on the combined flights.
Returns `none` for an empty flight list (the function returns `None`). -/
def createGroupDestination (flights : List Flight) : Option (String × String) :=
  match sortByDeparture flights with
  | [] => none
  | f :: fs =>
    let origin := f.departure_airport
    let dest0 := (fs.getLastD f).arrival_airport
    let destination :=
      match (f :: fs).find? (fun x => x.arrival_airport ≠ origin) with
      | some x => x.arrival_airport
      | none => dest0
    some (origin, destination)

/-- Modelled from the spec's naming rule, for comparison with
`createGroupDestination`: the destination reported in a trip's name is the
arrival airport of the first flight, in departure order, whose arrival
differs from the origin, falling back to the last flight's arrival. -/
def amendedNameDestination (flights : List Flight) : Option (String × String) :=
  match sortByDeparture flights with
  | [] => none
  | f :: fs =>
    let origin := f.departure_airport
    let arrivals := (f :: fs).map (fun x => x.arrival_airport)
    let destination :=
      match arrivals.find? (fun a => a ≠ origin) with
      | some a => a
      | none => (fs.getLastD f).arrival_airport
    some (origin, destination)

/-- Embeds the stay-scanning loop of `_find_trip_destination`
(models.py lines 32-35): the first flight followed by a gap of at least
24 h (1440 minutes) whose arrival is not the origin. -/
def findStayArrival (origin : String) : List Flight → Option String
  | f :: g :: rest =>
    if 1440 ≤ g.departure_datetime - f.arrival_datetime ∧ f.arrival_airport ≠ origin then
      some f.arrival_airport
    else findStayArrival origin (g :: rest)
  | _ => none

/-- Embeds `_find_trip_destination` (models.py lines 9-40), used by the
`FlightGroup.destination` property: last arrival when it differs from the
origin; otherwise the first arrival preceding a stay of at least 24 h;
otherwise the midpoint flight's arrival (or the first flight's arrival
when the midpoint arrival equals the origin). -/
def find_trip_destination (flights : List Flight) (origin : String) : String :=
  match flights with
  | [] => origin
  | f :: fs =>
    let last_arrival := (fs.getLastD f).arrival_airport
    if last_arrival ≠ origin then last_arrival
    else
      match findStayArrival origin (f :: fs) with
      | some a => a
      | none =>
        let mid := ((f :: fs).length - 1) / 2
        let arr := ((f :: fs).getD mid f).arrival_airport
        if arr ≠ origin then arr else f.arrival_airport

/-- Time span of a trip as `_merge_overlapping_groups` computes it
(grouping.py lines 190-194 and 197-201): flights ordered by departure,
span start is the first flight's departure, span end is the arrival of
the LAST flight in departure order.  `none` for an empty group (the code
skips such groups with `continue`). -/
def groupSpan (g : List Flight) : Option (Int × Int) :=
  match sortByDeparture g with
  | [] => none
  | f :: fs => some (f.departure_datetime, (fs.getLastD f).arrival_datetime)

/-- Modelled from the claim's words, for comparison with `groupSpan`:
the time span from the earliest departure to the LATEST arrival. -/
def claimSpan (g : List Flight) : Option (Int × Int) :=
  match (g.map (fun f => f.departure_datetime)).min?,
        (g.map (fun f => f.arrival_datetime)).max? with
  | some s, some e => some (s, e)
  | _, _ => none

/-- The overlap test of `_merge_overlapping_groups` (grouping.py line
204-206): `g1_start <= g2_end + max_gap and g2_start <= g1_end + max_gap`. -/
def spansOverlap (gap : Int) (s1 s2 : Int × Int) : Bool :=
  s1.1 ≤ s2.2 + gap && s2.1 ≤ s1.2 + gap

/-- Inner loop of `_merge_overlapping_groups`: scan the groups after `g1`
for the first nonempty one whose span overlaps `s1`; return it and the
remaining list with it removed. -/
def findPartner (gap : Int) (s1 : Int × Int) :
    List (List Flight) → Option (List Flight × List (List Flight))
  | [] => none
  | g2 :: rest =>
    match groupSpan g2 with
    | none => (findPartner gap s1 rest).map (fun p => (p.1, g2 :: p.2))
    | some s2 =>
      if spansOverlap gap s1 s2 then some (g2, rest)
      else (findPartner gap s1 rest).map (fun p => (p.1, g2 :: p.2))

/-- One pass of the `while changed` loop of `_merge_overlapping_groups`
up to the first merge: find the first pair `(g1, g2)` (in list order,
empty groups skipped) with overlapping spans, reassign `g2`'s flights
into `g1` and delete `g2`; `none` when a full pass finds no such pair. -/
def mergeStep (gap : Int) : List (List Flight) → Option (List (List Flight))
  | [] => none
  | g1 :: rest =>
    match groupSpan g1 with
    | none => (mergeStep gap rest).map (fun gs => g1 :: gs)
    | some s1 =>
      match findPartner gap s1 rest with
      | some p => some ((g1 ++ p.1) :: p.2)
      | none => (mergeStep gap rest).map (fun gs => g1 :: gs)

/-- The `while changed` loop of `_merge_overlapping_groups`, with explicit
fuel: restart the scan after every merge, stop when a pass merges nothing. -/
def mergeLoop (gap : Int) : Nat → List (List Flight) → List (List Flight)
  | 0, gs => gs
  | fuel + 1, gs =>
    match mergeStep gap gs with
    | none => gs
    | some gs' => mergeLoop gap fuel gs'

/-- Embeds `_merge_overlapping_groups` (grouping.py lines 171-244).  Each
merge removes one group, so `gs.length` steps of fuel always reach the
fixed point. -/
def mergeOverlappingGroups (gap : Int) (gs : List (List Flight)) : List (List Flight) :=
  mergeLoop gap gs.length gs

/-- Decides that no ordered pair of groups (both with a span) overlaps:
the negation of the merge condition, checked for every pair the scan of
`_merge_overlapping_groups` would visit. -/
def noOverlapPairsB (gap : Int) : List (List Flight) → Bool
  | [] => true
  | g :: rest =>
    rest.all (fun h =>
      match groupSpan g, groupSpan h with
      | some s1, some s2 => !spansOverlap gap s1 s2
      | _, _ => true) && noOverlapPairsB gap rest

/-- The join condition of `_group_by_proximity` (grouping.py line 159-161):
the next flight joins the current cluster when its departure is within
`gap` of the previous flight's arrival. -/
def withinGap (gap : Int) (prev f : Flight) : Bool :=
  f.departure_datetime - prev.arrival_datetime ≤ gap

/-- The scanning loop of `_group_by_proximity` (grouping.py lines 156-167):
`cur` is the current cluster (nonempty), `prev` the previously scanned
flight. -/
def proxAux (gap : Int) (cur : List Flight) (prev : Flight) : List Flight → List (List Flight)
  | [] => [cur]
  | c :: rest =>
    if withinGap gap prev c then proxAux gap (cur ++ [c]) c rest
    else cur :: proxAux gap [c] c rest

/-- Embeds `_group_by_proximity` (grouping.py lines 144-168). -/
def groupByProximity (gap : Int) : List Flight → List (List Flight)
  | [] => []
  | f :: rest => proxAux gap [f] f rest

/-- Phase 2 of `auto_group_flights` (grouping.py lines 71-78): only
clusters with at least two flights become trips; singleton clusters stay
ungrouped. -/
def proximityTrips (gap : Int) (fs : List Flight) : List (List Flight) :=
  (groupByProximity gap fs).filter (fun c => 2 ≤ c.length)

/-- Recursive reformulation of the proximity scan used for reasoning:
returns the continuation of the current cluster and the later clusters. -/
def proxSplit (gap : Int) (prev : Flight) : List Flight → List Flight × List (List Flight)
  | [] => ([], [])
  | c :: rest =>
    if withinGap gap prev c then
      let p := proxSplit gap c rest
      (c :: p.1, p.2)
    else
      let p := proxSplit gap c rest
      ([], (c :: p.1) :: p.2)

/-- Decides that a list of flights is chained: each flight is within the
gap of its predecessor, starting from `prev`. -/
def chainFromB (gap : Int) (prev : Flight) : List Flight → Bool
  | [] => true
  | c :: rest => withinGap gap prev c && chainFromB gap c rest

/-- Decides that a cluster is nonempty and internally chained. -/
def clusterChainB (gap : Int) : List Flight → Bool
  | [] => false
  | c :: rest => chainFromB gap c rest

/-- Decides that every cluster boundary is a genuine gap violation: the
last flight of each cluster and the first flight of the next cluster are
NOT within the gap. -/
def boundariesOkB (gap : Int) : List (List Flight) → Bool
  | g :: h :: rest =>
    (match g.getLast?, h.head? with
     | some a, some b => !withinGap gap a b
     | _, _ => false) && boundariesOkB gap (h :: rest)
  | _ => true

/-- One extracted flight leg as produced by the extraction engine
(`extract_flights_from_email`), reduced to the fields the dedup path
reads. -/
structure ExtractedLeg where
  flight_number : String
  departure_airport : String
  arrival_airport : String
  departure_minutes : Int
  arrival_minutes : Int
deriving DecidableEq

/-- One persisted `Flight` row of a fixed user, reduced to the fields the
dedup path of `process_email_for_flights` reads and writes. -/
structure FlightRow where
  email_message_id : String
  flight_number : String
  departure_airport : String
  arrival_airport : String
  departure_minutes : Int
  arrival_minutes : Int
deriving DecidableEq

/-- The dedup key of `process_email_for_flights` (parsers.py line 611):
`f"{email_msg.message_id}:{flight_data['flight_number']}"`. -/
def dedupKey (msgId flightNumber : String) : String :=
  msgId ++ ":" ++ flightNumber

/-- Builds the persisted row for one extracted leg (parsers.py lines
617-625): the row stores the dedup key as its `email_message_id`. -/
def rowOfLeg (msgId : String) (l : ExtractedLeg) : FlightRow :=
  { email_message_id := dedupKey msgId l.flight_number
    flight_number := l.flight_number
    departure_airport := l.departure_airport
    arrival_airport := l.arrival_airport
    departure_minutes := l.departure_minutes
    arrival_minutes := l.arrival_minutes }

/-- Embeds the persistence loop of `process_email_for_flights`
(parsers.py lines 609-631) for one user: for each extracted leg, a row
whose `email_message_id` equals the leg's dedup key already existing is a
no-op; otherwise the row is created.  Returns the final database and the
list of created rows, in creation order. -/
def processLegs (db : List FlightRow) (msgId : String) : List ExtractedLeg → List FlightRow × List FlightRow
  | [] => (db, [])
  | l :: rest =>
    if db.any (fun f => f.email_message_id = dedupKey msgId l.flight_number) then
      processLegs db msgId rest
    else
      let row := rowOfLeg msgId l
      let p := processLegs (db ++ [row]) msgId rest
      (p.1, row :: p.2)

/-- A calendar date, as used by the year-inference logic of the Azul
extraction path. -/
structure SimpleDate where
  year : Nat
  month : Nat
  day : Nat
deriving DecidableEq

/-- Strict calendar order on dates (Python `date.__lt__`). -/
def dateBefore (a b : SimpleDate) : Bool :=
  a.year < b.year ||
    (a.year = b.year && (a.month < b.month || (a.month = b.month && a.day < b.day)))

/-- Gregorian leap-year test, as in Python's `datetime.date`. -/
def isLeapYear (y : Nat) : Bool :=
  (y % 4 = 0 && y % 100 ≠ 0) || y % 400 = 0

/-- Number of days of a month, as validated by the `datetime.date`
constructor. -/
def daysInMonth (y m : Nat) : Nat :=
  if m = 2 then (if isLeapYear y then 29 else 28)
  else if m = 4 ∨ m = 6 ∨ m = 9 ∨ m = 11 then 30
  else 31

/-- Validity of a (year, month, day) triple: the `datetime.date`
constructor raises `ValueError` exactly when this is false. -/
def validDate (y m d : Nat) : Bool :=
  1 ≤ m && m ≤ 12 && 1 ≤ d && d ≤ daysInMonth y m

/-- Embeds `_parse_ddmm_date` (bs4_extractors.py lines 580-593), applied
to the day and month already extracted from a `DD/MM` string: build the
candidate date in the reference year; when an email date is known and the
candidate precedes it, move to the next year; a `ValueError` from the
`date` constructor yields `None`.  The generic regex path (parsers.py
lines 527-533 and 553-558) applies the same advancement to a date parsed
with the sentinel year 1900. -/
def parse_ddmm_date (day month refYear : Nat) (emailDate : Option SimpleDate) : Option SimpleDate :=
  if validDate refYear month day then
    let candidate : SimpleDate := ⟨refYear, month, day⟩
    match emailDate with
    | some e =>
      if dateBefore candidate e then
        if validDate (refYear + 1) month day then some ⟨refYear + 1, month, day⟩ else none
      else some candidate
    | none => some candidate
  else none

/-- Embeds the bare-digit flight-number prefixing of
`extract_flights_from_email` (parsers.py lines 477-479): a nonempty
all-digit flight number is prefixed with the rule's airline code when the
rule has one. -/
def prefixFlightNumber (raw code : String) : String :=
  if raw ≠ "" && raw.data.all (fun c => c.isDigit) && code ≠ "" then code ++ raw else raw

/-- Embeds `_build_datetime` (bs4_extractors.py lines 90-98) with the
date given as an ordinal day number and the time as hour/minute: the
`datetime` constructor validates the time fields, giving `None` for an
out-of-range hour or minute.  The result is an instant in minutes. -/
def buildDatetimeMinutes (day : Int) (h m : Nat) : Option Int :=
  if h ≤ 23 && m ≤ 59 then some (day * 1440 + (h : Int) * 60 + (m : Int)) else none

/-- Embeds the instant construction of `_extract_sas_bs4`
(bs4_extractors.py lines 424-432): both instants are built from the same
section-header date; when the arrival would precede the departure the
arrival is rebuilt on the next day. -/
def sasLegTimes (day : Int) (dh dm ah am : Nat) : Option (Int × Int) :=
  match buildDatetimeMinutes day dh dm, buildDatetimeMinutes day ah am with
  | some dep, some arr =>
    if arr < dep then
      match buildDatetimeMinutes (day + 1) ah am with
      | some arr2 => some (dep, arr2)
      | none => none
    else some (dep, arr)
  | _, _ => none

/-- One parsed LATAM connection marker (parsers.py lines 246-254): the
connection airport, the flight number of the NEXT segment, and the
declared layover in minutes (`hr * 60 + min`). -/
structure LatamConn where
  airport : String
  flight_number : String
  layover_minutes : Nat
deriving DecidableEq

/-- One entry of the `segments` list built by `_extract_latam_flights`
(parsers.py lines 268-310), without the `next_flight` bookkeeping field. -/
structure LatamSeg where
  dep_airport : String
  arr_airport : String
  flight_number : String
  layover_after_minutes : Nat
deriving DecidableEq

/-- One flight leg produced by the LATAM connection branch, with instants
in seconds (rational, because the code divides a number of seconds by the
segment count). -/
structure LatamLeg where
  flight_number : String
  departure_airport : String
  arrival_airport : String
  departure_seconds : Rat
  arrival_seconds : Rat
deriving DecidableEq

/-- Embeds the segment-chain construction of `_extract_latam_flights`
(parsers.py lines 268-310): the first segment runs from the block's
departure airport to the first connection using the first flight number;
each further segment runs between consecutive connection airports using
the previous connection's flight number; the last segment reaches the
block's arrival airport with a zero layover. -/
def buildLatamSegments (prevAirport prevFlight arrAirport : String) :
    List LatamConn → List LatamSeg
  | [] => [⟨prevAirport, arrAirport, prevFlight, 0⟩]
  | c :: rest =>
    ⟨prevAirport, c.airport, prevFlight, c.layover_minutes⟩ ::
      buildLatamSegments c.airport c.flight_number arrAirport rest

/-- Embeds the time-assignment loop of `_extract_latam_flights`
(parsers.py lines 335-362): each segment departs at the running instant,
arrives one per-segment flight duration later, and the running instant
then advances by that segment's layover. -/
def assignLatamTimes (fps : Rat) (t : Rat) : List LatamSeg → List LatamLeg
  | [] => []
  | s :: rest =>
    ⟨s.flight_number, s.dep_airport, s.arr_airport, t, t + fps⟩ ::
      assignLatamTimes fps (t + fps + 60 * (s.layover_after_minutes : Rat)) rest

/-- Total declared layover of a segment list in seconds (parsers.py line
325): `sum(s['layover_after_minutes'] * 60 for s in segments)`. -/
def latamTotalLayover (segs : List LatamSeg) : Rat :=
  (segs.map (fun s => (s.layover_after_minutes : Rat) * 60)).sum

/-- Embeds the connection branch of `_extract_latam_flights` (parsers.py
lines 263-362) for one itinerary block, starting from the already parsed
departure/arrival instants (seconds) and connection markers: build the
segment chain, subtract the declared layover time from the elapsed time,
abort with zero legs when the remaining flight time is not positive,
otherwise distribute it evenly and keep only legs with a flight number
and both airports (the code's completeness check before appending). -/
def extractLatamConnectionLegs (depAirport arrAirport firstFlight : String)
    (conns : List LatamConn) (depTime arrTime : Rat) : List LatamLeg :=
  let segments := buildLatamSegments depAirport firstFlight arrAirport conns
  let totalElapsed := arrTime - depTime
  let totalFlight := totalElapsed - latamTotalLayover segments
  let nSegments := segments.length
  if totalFlight ≤ 0 ∨ nSegments = 0 then []
  else
    let fps := totalFlight / (nSegments : Rat)
    (assignLatamTimes fps depTime segments).filter
      (fun l => l.flight_number ≠ "" && l.departure_airport ≠ "" && l.arrival_airport ≠ "")

/-- Whitespace in the sense of Python's `\s` and `str.strip`. -/
def isPyWs (c : Char) : Bool :=
  c = ' ' || c = '\t' || c = '\n' || c = '\r' || c = '\x0b' || c = '\x0c'

/-- Horizontal whitespace: the character class `[^\S\n]` of
`_HTMLTextExtractor.get_text` (email_connector.py line 45). -/
def isHorizWs (c : Char) : Bool :=
  isPyWs c && c ≠ '\n'

/-- Space or tab: the character class `[ \t]` of the blank-line collapse
(email_connector.py line 47). -/
def isSpaceTab (c : Char) : Bool :=
  c = ' ' || c = '\t'

/-- The block-level tags of `_HTMLTextExtractor.BLOCK_TAGS`
(email_connector.py lines 21-25). -/
def blockTagNames : List String :=
  ["p", "div", "br", "tr", "td", "th", "li",
   "h1", "h2", "h3", "h4", "h5", "h6",
   "table", "blockquote", "pre", "section", "article", "header", "footer"]

/-- The newline emitted for a tag: `handle_starttag` and `handle_endtag`
append a newline exactly for block-level tags (email_connector.py lines
31-37).  The tag text between `<` and `>` is accumulated in `acc`; an end
tag starts with a slash; the tag name ends at whitespace or a slash and
is compared lowercased. -/
def tagPiece (acc : List Char) : List Char :=
  let tagBody := if acc.head? = some '/' then acc.drop 1 else acc
  let name := (tagBody.takeWhile (fun c => !isPyWs c && c ≠ '/')).map Char.toLower
  if blockTagNames.contains (String.mk name) then ['\n'] else []

/-- One pass of the HTML tokenizer modelling `HTMLParser.feed` for the
markup the airline emails use: outside a tag, text characters are data
(`handle_data`); a `<` opens a tag whose content is collected until `>`;
an unterminated tag is buffered and produces nothing. -/
def feedAux (inTag : Bool) (acc : List Char) : List Char → List Char
  | [] => []
  | c :: rest =>
    if inTag then
      if c = '>' then tagPiece acc ++ feedAux false [] rest
      else feedAux true (acc ++ [c]) rest
    else
      if c = '<' then feedAux true [] rest
      else c :: feedAux false acc rest

/-- The concatenated pieces produced by feeding an HTML document to
`_HTMLTextExtractor` (email_connector.py lines 27-41). -/
def feedPieces (l : List Char) : List Char :=
  feedAux false [] l

/-- Embeds `re.sub(r'[^\S\n]+', ' ', text)` (email_connector.py line 45):
every run of non-newline whitespace collapses to one space. -/
def collapseHWSAux (prevHws : Bool) : List Char → List Char
  | [] => []
  | c :: rest =>
    if isHorizWs c then
      if prevHws then collapseHWSAux true rest
      else ' ' :: collapseHWSAux true rest
    else c :: collapseHWSAux false rest

/-- Collapse runs of horizontal whitespace to a single space. -/
def collapseHWS (l : List Char) : List Char :=
  collapseHWSAux false l

/-- Embeds `re.sub(r'\n[ \t]*\n', '\n\n', text)` (email_connector.py line
47) as a left-to-right scan: `pending = some run` means a newline was
seen followed by the run of spaces/tabs collected so far; a closing
newline rewrites the whole match to two newlines and scanning continues
after it. -/
def collapseBlankAux (pending : Option (List Char)) : List Char → List Char
  | [] =>
    match pending with
    | none => []
    | some run => '\n' :: run
  | c :: rest =>
    match pending with
    | some run =>
      if c = '\n' then '\n' :: '\n' :: collapseBlankAux none rest
      else if isSpaceTab c then collapseBlankAux (some (run ++ [c])) rest
      else ('\n' :: run) ++ (c :: collapseBlankAux none rest)
    | none =>
      if c = '\n' then collapseBlankAux (some []) rest
      else c :: collapseBlankAux none rest

/-- Collapse `\n[ \t]*\n` to `\n\n`, left to right. -/
def collapseBlank (l : List Char) : List Char :=
  collapseBlankAux none l

/-- Embeds `text.split('\n')`. -/
def splitLinesAux (cur : List Char) : List Char → List (List Char)
  | [] => [cur.reverse]
  | c :: rest =>
    if c = '\n' then cur.reverse :: splitLinesAux [] rest
    else splitLinesAux (c :: cur) rest

/-- Split a character list on newlines, keeping empty lines. -/
def splitLines (l : List Char) : List (List Char) :=
  splitLinesAux [] l

/-- Embeds Python `str.strip()`: remove whitespace from both ends. -/
def stripChars (l : List Char) : List Char :=
  ((l.dropWhile isPyWs).reverse.dropWhile isPyWs).reverse

/-- Embeds the consecutive-blank-line deduplication of `get_text`
(email_connector.py lines 50-59). -/
def dedupeBlankAux (prevEmpty : Bool) : List (List Char) → List (List Char)
  | [] => []
  | line :: rest =>
    if line.isEmpty then
      if prevEmpty then dedupeBlankAux true rest
      else [] :: dedupeBlankAux true rest
    else line :: dedupeBlankAux false rest

/-- Embeds `'\n'.join(result)`. -/
def joinLines : List (List Char) → List Char
  | [] => []
  | [l] => l
  | l :: rest => l ++ '\n' :: joinLines rest

/-- Embeds `_HTMLTextExtractor.get_text` (email_connector.py lines 42-60)
applied to the concatenated pieces. -/
def getTextPieces (pieces : List Char) : List Char :=
  let t1 := collapseHWS pieces
  let t2 := collapseBlank t1
  let lines := (splitLines t2).map stripChars
  let result := dedupeBlankAux false lines
  stripChars (joinLines result)

/-- Embeds `html_to_text` (email_connector.py lines 63-67). -/
def html_to_text (s : String) : String :=
  String.mk (getTextPieces (feedPieces s.data))

/-- Python `str.strip()` on a `String`. -/
def pyStrip (s : String) : String :=
  String.mk (stripChars s.data)

/-- One MIME body part: its content type and its decoded payload. -/
structure MimePart where
  content_type : String
  payload : String
deriving DecidableEq

/-- A raw MIME message as `get_email_body` distinguishes them: multipart
with a list of parts, or a single-part message. -/
inductive RawMime where
  | multipart (parts : List MimePart)
  | single (content_type : String) (payload : String)
deriving DecidableEq

/-- The final combination step of `get_email_body` (email_connector.py
lines 112-118): the stripped nonempty bodies are joined — into ONE string
— with a blank line between them. -/
def joinBodies (plain html : String) : String :=
  let parts := (if plain ≠ "" then [pyStrip plain] else []) ++
    (if html ≠ "" then [pyStrip html] else [])
  String.intercalate "\n\n" parts

/-- Embeds `get_email_body` (email_connector.py lines 82-118): collect
the first nonempty `text/plain` payload and the text conversion of the
first nonempty `text/html` payload, then return both COMBINED into a
single string. -/
def get_email_body (msg : RawMime) : String :=
  match msg with
  | .multipart parts =>
    let plain := ((parts.find? (fun p => p.content_type = "text/plain" && p.payload ≠ "")).map
      (fun p => p.payload)).getD ""
    let html := ((parts.find? (fun p => p.content_type = "text/html" && p.payload ≠ "")).map
      (fun p => html_to_text p.payload)).getD ""
    joinBodies plain html
  | .single ct payload =>
    if payload = "" then joinBodies "" ""
    else if ct = "text/html" then joinBodies "" (html_to_text payload)
    else joinBodies payload ""

/-- The normalized message container `EmailMessage` (email_connector.py
lines 121-132), with exactly the fields its constructor sets: one single
`body` field and no separate HTML-derived field. -/
structure EmailMessage where
  message_id : String
  sender : String
  subject : String
  body : String
  date : Option SimpleDate
deriving DecidableEq

/-- Count the leading dashes of a character list and return the rest,
modelling a greedy `-{3,}` run. -/
def dropDashes : List Char → Nat × List Char
  | '-' :: rest =>
    let p := dropDashes rest
    (p.1 + 1, p.2)
  | l => (0, l)

/-- Greedily drop whitespace, modelling `\s*`. -/
def dropWs (l : List Char) : List Char :=
  l.dropWhile isPyWs

/-- Case-sensitive literal match: return the remainder when `k` is a
prefix of `l`. -/
def stripLit : List Char → List Char → Option (List Char)
  | [], l => some l
  | k :: ks, c :: cs => if c = k then stripLit ks cs else none
  | _ :: _, [] => none

/-- Case-insensitive literal match, modelling `re.IGNORECASE`: the
pattern characters are compared lowercased. -/
def stripLitCI : List Char → List Char → Option (List Char)
  | [], l => some l
  | k :: ks, c :: cs => if c.toLower = k.toLower then stripLitCI ks cs else none
  | _ :: _, [] => none

/-- Match `\s+` (at least one whitespace character) greedily. -/
def dropWsPlus (l : List Char) : Option (List Char) :=
  match l with
  | c :: _ => if isPyWs c then some (dropWs l) else none
  | [] => none

/-- Match `[Mm]essage` at the current position. -/
def stripMessageWord (l : List Char) : Option (List Char) :=
  match l with
  | c :: rest =>
    if c = 'M' ∨ c = 'm' then stripLit ("essage".data) rest else none
  | [] => none

/-- Match `-{3,}\s*Forwarded\s+[Mm]essage\s*-{3,}` (smtp_server.py line
45) at the current position, returning the remainder after the match. -/
def matchFwdMarker1 (l : List Char) : Option (List Char) :=
  let p1 := dropDashes l
  if p1.1 < 3 then none
  else
    match stripLit ("Forwarded".data) (dropWs p1.2) with
    | none => none
    | some r3 =>
      match dropWsPlus r3 with
      | none => none
      | some r4 =>
        match stripMessageWord r4 with
        | none => none
        | some r6 =>
          let p2 := dropDashes (dropWs r6)
          if p2.1 < 3 then none else some p2.2

/-- Match `-{3,}\s*Original\s+[Mm]essage\s*-{3,}` (smtp_server.py line
46) at the current position. -/
def matchFwdMarker2 (l : List Char) : Option (List Char) :=
  let p1 := dropDashes l
  if p1.1 < 3 then none
  else
    match stripLit ("Original".data) (dropWs p1.2) with
    | none => none
    | some r3 =>
      match dropWsPlus r3 with
      | none => none
      | some r4 =>
        match stripMessageWord r4 with
        | none => none
        | some r6 =>
          let p2 := dropDashes (dropWs r6)
          if p2.1 < 3 then none else some p2.2

/-- Match `Begin\s+forwarded\s+message:` (smtp_server.py line 47) at the
current position. -/
def matchFwdMarker3 (l : List Char) : Option (List Char) :=
  match stripLit ("Begin".data) l with
  | none => none
  | some r1 =>
    match dropWsPlus r1 with
    | none => none
    | some r2 =>
      match stripLit ("forwarded".data) r2 with
      | none => none
      | some r3 =>
        match dropWsPlus r3 with
        | none => none
        | some r4 => stripLit ("message:".data) r4

/-- Leftmost search of a positional matcher, as `re.search` does: try the
matcher at every position and return the remainder after the first match. -/
def searchEnd (f : List Char → Option (List Char)) : List Char → Option (List Char)
  | [] => f []
  | c :: rest =>
    match f (c :: rest) with
    | some rem => some rem
    | none => searchEnd f rest

/-- Embeds the marker scan of `_extract_forwarded_email` (smtp_server.py
lines 44-55): the three wrapper patterns are tried in order over the full
body; the result is the part of the body after the first marker found. -/
def findFwdStart (body : List Char) : Option (List Char) :=
  match searchEnd matchFwdMarker1 body with
  | some rem => some rem
  | none =>
    match searchEnd matchFwdMarker2 body with
    | some rem => some rem
    | none => searchEnd matchFwdMarker3 body

/-- The sender keywords of the wrapper-header regex
`(?:From|De|Von|Fra):` (smtp_server.py line 68). -/
def fromKeys : List (List Char) :=
  [("From".data), ("De".data), ("Von".data), ("Fra".data)]

/-- The subject keywords of the wrapper-header regex (smtp_server.py line
74); the last entry reproduces the mojibake spelling in the source. -/
def subjectKeys : List (List Char) :=
  [("Subject".data), ("Assunto".data), ("Betreff".data), ("Emne".data), ("Ã„mne".data)]

/-- Try each keyword alternative, case-insensitively, followed by a
literal colon, at the current position. -/
def matchKeyAt (keys : List (List Char)) (l : List Char) : Option (List Char) :=
  match keys with
  | [] => none
  | k :: ks =>
    match stripLitCI k l with
    | some r =>
      match r with
      | c :: r2 => if c = ':' then some r2 else matchKeyAt ks l
      | [] => matchKeyAt ks l
    | none => matchKeyAt ks l

/-- The captured group `\s*(.+?)(?:\n|$)` after the colon: skip
whitespace greedily, take at least one character up to the next newline,
and strip the capture as the code does with `.strip()`. -/
def captureLine (r : List Char) : Option (List Char) :=
  let r2 := dropWs r
  let line := r2.takeWhile (fun c => c ≠ '\n')
  if line.isEmpty then none else some (stripChars line)

/-- Leftmost search for a wrapper header line: the first position where a
keyword, a colon and a nonempty captured value match. -/
def searchHeader (keys : List (List Char)) : List Char → Option (List Char)
  | [] => none
  | c :: rest =>
    match (matchKeyAt keys (c :: rest)).bind captureLine with
    | some v => some v
    | none => searchHeader keys rest

/-- For a maximal whitespace run at the head of `l`, the remainder after
the LAST newline inside the run; `none` when the run has no newline.
This is the continuation point of a greedy `\n\s*\n` match. -/
def lastNlInRun : List Char → Option (List Char)
  | [] => none
  | c :: rest =>
    if isPyWs c then
      match lastNlInRun rest with
      | some rem => some rem
      | none => if c = '\n' then some rest else none
    else none

/-- Embeds `re.search(r'\n\s*\n', forwarded_part)` (smtp_server.py line
82), returning the suffix after the match end: the first newline whose
following whitespace run contains another newline starts the match, and
the match ends after the last newline of that run. -/
def findBlankEnd : List Char → Option (List Char)
  | [] => none
  | c :: rest =>
    if c = '\n' then
      match lastNlInRun rest with
      | some rem => some rem
      | none => findBlankEnd rest
    else findBlankEnd rest

/-- Embeds `_extract_forwarded_email` (smtp_server.py lines 30-88):
without a forwarding marker the body is returned unchanged with empty
sender and subject; with one, the wrapper sender and subject are read
from the header lines after the marker and the body is the stripped text
after the first blank line. -/
def extract_forwarded_email (raw_body : List Char) : List Char × List Char × List Char :=
  match findFwdStart raw_body with
  | none => ([], [], raw_body)
  | some forwarded =>
    let sender := (searchHeader fromKeys forwarded).getD []
    let subject := (searchHeader subjectKeys forwarded).getD []
    let body :=
      match findBlankEnd forwarded with
      | some rem => rem
      | none => forwarded
    (sender, subject, stripChars body)

/-- The Gmail-style forwarding marker used in the claim's scenario. -/
def gmailMarker : List Char :=
  ("---------- Forwarded message ---------").data

theorem processLegs_db_prefix (msgId : String) (legs : List ExtractedLeg) :
    ∀ db : List FlightRow, ∃ ext, (processLegs db msgId legs).1 = db ++ ext := by
  induction legs with
  | nil => intro db; exact ⟨[], by simp [processLegs]⟩
  | cons l rest ih =>
    intro db
    unfold processLegs
    by_cases hx : db.any (fun f => f.email_message_id = dedupKey msgId l.flight_number) = true
    · rw [if_pos hx]; exact ih db
    · rw [if_neg hx]
      obtain ⟨ext, hext⟩ := ih (db ++ [rowOfLeg msgId l])
      exact ⟨rowOfLeg msgId l :: ext, by simp [hext]⟩

theorem processLegs_mem_db {db : List FlightRow} {msgId : String} {legs : List ExtractedLeg}
    {f : FlightRow} (hf : f ∈ db) : f ∈ (processLegs db msgId legs).1 := by
  obtain ⟨ext, hext⟩ := processLegs_db_prefix msgId legs db
  rw [hext]
  exact List.mem_append_left _ hf

theorem processLegs_key_mem (msgId : String) (legs : List ExtractedLeg) :
    ∀ db : List FlightRow, ∀ l ∈ legs,
      ∃ f ∈ (processLegs db msgId legs).1, f.email_message_id = dedupKey msgId l.flight_number := by
  induction legs with
  | nil => intro db l hl; exact absurd hl (List.not_mem_nil l)
  | cons l0 rest ih =>
    intro db l hl
    unfold processLegs
    by_cases hx : db.any (fun f => f.email_message_id = dedupKey msgId l0.flight_number) = true
    · rw [if_pos hx]
      rcases List.mem_cons.mp hl with h | h
      · subst h
        obtain ⟨f, hfdb, hfk⟩ := List.any_eq_true.mp hx
        exact ⟨f, processLegs_mem_db hfdb, of_decide_eq_true hfk⟩
      · exact ih db l h
    · rw [if_neg hx]
      rcases List.mem_cons.mp hl with h | h
      · subst h
        refine ⟨rowOfLeg msgId l, ?_, rfl⟩
        exact processLegs_mem_db (by simp)
      · obtain ⟨f, hf, hk⟩ := ih (db ++ [rowOfLeg msgId l0]) l h
        exact ⟨f, hf, hk⟩

theorem processLegs_skip_all (msgId : String) (legs : List ExtractedLeg) :
    ∀ db : List FlightRow,
      (∀ l ∈ legs, ∃ f ∈ db, f.email_message_id = dedupKey msgId l.flight_number) →
      processLegs db msgId legs = (db, []) := by
  induction legs with
  | nil => intro db _; rfl
  | cons l rest ih =>
    intro db h
    unfold processLegs
    obtain ⟨f, hfdb, hfk⟩ := h l (List.mem_cons_self l rest)
    rw [if_pos (List.any_eq_true.mpr ⟨f, hfdb, decide_eq_true hfk⟩)]
    exact ih db (fun l' hl' => h l' (List.mem_cons_of_mem l hl'))

theorem pairwise_key_processLegs (msgId : String) (legs : List ExtractedLeg) :
    ∀ db : List FlightRow,
      db.Pairwise (fun a b => a.email_message_id ≠ b.email_message_id) →
      ((processLegs db msgId legs).1).Pairwise (fun a b => a.email_message_id ≠ b.email_message_id) := by
  induction legs with
  | nil => intro db h; exact h
  | cons l rest ih =>
    intro db h
    unfold processLegs
    by_cases hx : db.any (fun f => f.email_message_id = dedupKey msgId l.flight_number) = true
    · rw [if_pos hx]; exact ih db h
    · rw [if_neg hx]
      refine ih (db ++ [rowOfLeg msgId l]) ?_
      rw [List.pairwise_append]
      refine ⟨h, List.pairwise_singleton _ _, ?_⟩
      intro a ha b hb
      rw [List.mem_singleton] at hb
      subst hb
      intro hcontra
      exact hx (List.any_eq_true.mpr ⟨a, ha, decide_eq_true hcontra⟩)

theorem processLegs_created_key (msgId : String) (legs : List ExtractedLeg) :
    ∀ db : List FlightRow, ∀ r ∈ (processLegs db msgId legs).2,
      r.email_message_id = dedupKey msgId r.flight_number := by
  induction legs with
  | nil => intro db r hr; exact absurd hr (List.not_mem_nil r)
  | cons l rest ih =>
    intro db r hr
    unfold processLegs at hr
    by_cases hx : db.any (fun f => f.email_message_id = dedupKey msgId l.flight_number) = true
    · rw [if_pos hx] at hr; exact ih db r hr
    · rw [if_neg hx] at hr
      simp only [List.mem_cons] at hr
      rcases hr with h | h
      · subst h; rfl
      · exact ih (db ++ [rowOfLeg msgId l]) r h

theorem processLegs_created_fresh (msgId : String) (legs : List ExtractedLeg) :
    ∀ db : List FlightRow, ∀ r ∈ (processLegs db msgId legs).2, ∀ f ∈ db,
      f.email_message_id ≠ r.email_message_id := by
  induction legs with
  | nil => intro db r hr; exact absurd hr (List.not_mem_nil r)
  | cons l rest ih =>
    intro db r hr f hf
    unfold processLegs at hr
    by_cases hx : db.any (fun g => g.email_message_id = dedupKey msgId l.flight_number) = true
    · rw [if_pos hx] at hr; exact ih db r hr f hf
    · rw [if_neg hx] at hr
      simp only [List.mem_cons] at hr
      rcases hr with h | h
      · subst h
        intro hcontra
        exact hx (List.any_eq_true.mpr ⟨f, hf, decide_eq_true hcontra⟩)
      · exact ih (db ++ [rowOfLeg msgId l]) r h f (List.mem_append_left _ hf)

theorem created_pairwise_distinct (msgId : String) (legs : List ExtractedLeg) :
    ∀ db : List FlightRow,
      ((processLegs db msgId legs).2).Pairwise (fun a b => a.flight_number ≠ b.flight_number) := by
  induction legs with
  | nil => intro db; exact List.Pairwise.nil
  | cons l rest ih =>
    intro db
    unfold processLegs
    by_cases hx : db.any (fun f => f.email_message_id = dedupKey msgId l.flight_number) = true
    · rw [if_pos hx]; exact ih db
    · rw [if_neg hx]
      simp only
      refine List.Pairwise.cons ?_ (ih (db ++ [rowOfLeg msgId l]))
      intro b hb hcontra
      have hkey := processLegs_created_key msgId rest (db ++ [rowOfLeg msgId l]) b hb
      have hfresh := processLegs_created_fresh msgId rest (db ++ [rowOfLeg msgId l]) b hb
        (rowOfLeg msgId l) (by simp)
      apply hfresh
      rw [hkey]
      exact congrArg (dedupKey msgId) hcontra

theorem proxAux_eq (gap : Int) : ∀ (rest : List Flight) (cur : List Flight) (prev : Flight),
    proxAux gap cur prev rest =
      (cur ++ (proxSplit gap prev rest).1) :: (proxSplit gap prev rest).2 := by
  intro rest
  induction rest with
  | nil => intro cur prev; simp [proxAux, proxSplit]
  | cons c r ih =>
    intro cur prev
    unfold proxAux proxSplit
    by_cases h : withinGap gap prev c = true
    · rw [if_pos h, if_pos h, ih]
      simp
    · rw [if_neg h, if_neg h, ih]
      simp

theorem proxSplit_cover (gap : Int) : ∀ (rest : List Flight) (prev : Flight),
    (proxSplit gap prev rest).1 ++ ((proxSplit gap prev rest).2).flatten = rest := by
  intro rest
  induction rest with
  | nil => intro prev; simp [proxSplit]
  | cons c r ih =>
    intro prev
    unfold proxSplit
    by_cases h : withinGap gap prev c = true
    · rw [if_pos h]
      simp only [List.cons_append]
      rw [ih]
    · rw [if_neg h]
      simp only [List.nil_append, List.flatten_cons, List.cons_append]
      rw [ih]

theorem proxSplit_chain (gap : Int) : ∀ (rest : List Flight) (prev : Flight),
    chainFromB gap prev (proxSplit gap prev rest).1 = true := by
  intro rest
  induction rest with
  | nil => intro prev; rfl
  | cons c r ih =>
    intro prev
    unfold proxSplit
    by_cases h : withinGap gap prev c = true
    · rw [if_pos h]
      simp only [chainFromB, h, Bool.true_and]
      exact ih c
    · rw [if_neg h]
      rfl

theorem proxSplit_clusters (gap : Int) : ∀ (rest : List Flight) (prev : Flight),
    ((proxSplit gap prev rest).2).all (fun g => clusterChainB gap g) = true := by
  intro rest
  induction rest with
  | nil => intro prev; rfl
  | cons c r ih =>
    intro prev
    unfold proxSplit
    by_cases h : withinGap gap prev c = true
    · rw [if_pos h]
      exact ih c
    · rw [if_neg h]
      simp only [List.all_cons, Bool.and_eq_true]
      refine ⟨?_, ih c⟩
      show chainFromB gap c (proxSplit gap c r).1 = true
      exact proxSplit_chain gap r c

theorem boundariesOkB_cons_irrel (gap : Int) (x : Flight) (g : List Flight) (t : List (List Flight))
    (hg : g ≠ []) : boundariesOkB gap ((x :: g) :: t) = boundariesOkB gap (g :: t) := by
  cases g with
  | nil => exact absurd rfl hg
  | cons y g' =>
    cases t with
    | nil => rfl
    | cons h t' =>
      show ((match (x :: y :: g').getLast?, h.head? with
            | some a, some b => !withinGap gap a b
            | _, _ => false) && boundariesOkB gap (h :: t')) =
           ((match (y :: g').getLast?, h.head? with
            | some a, some b => !withinGap gap a b
            | _, _ => false) && boundariesOkB gap (h :: t'))
      rw [List.getLast?_cons_cons]

theorem proxSplit_boundaries (gap : Int) : ∀ (rest : List Flight) (prev : Flight),
    boundariesOkB gap ((prev :: (proxSplit gap prev rest).1) :: (proxSplit gap prev rest).2) = true := by
  intro rest
  induction rest with
  | nil => intro prev; rfl
  | cons c r ih =>
    intro prev
    unfold proxSplit
    by_cases h : withinGap gap prev c = true
    · rw [if_pos h]
      simp only
      rw [boundariesOkB_cons_irrel gap prev (c :: (proxSplit gap c r).1) _ (by simp)]
      exact ih c
    · rw [if_neg h]
      simp only
      show ((match [prev].getLast?, (c :: (proxSplit gap c r).1).head? with
            | some a, some b => !withinGap gap a b
            | _, _ => false) && boundariesOkB gap ((c :: (proxSplit gap c r).1) :: (proxSplit gap c r).2)) = true
      rw [Bool.and_eq_true]
      constructor
      · simp only [List.getLast?_singleton, List.head?_cons]
        simp [h]
      · exact ih c

/-- C5: in temporal-proximity clustering of flights sorted by departure
time, the clusters partition the input in order, every flight inside a
cluster departs at most `gap` after its predecessor's arrival, every
cluster boundary violates that bound (so membership holds EXACTLY at the
threshold), and — concretely, with the 48-hour threshold in minutes — a
gap of exactly 48 h joins one cluster which becomes a trip, while a gap
of 48 h + 1 min yields two singleton clusters and no trip. -/
theorem temporal_clustering_threshold :
    (∀ (gap : Int) (fs : List Flight),
      (groupByProximity gap fs).flatten = fs ∧
      (groupByProximity gap fs).all (fun g => clusterChainB gap g) = true ∧
      boundariesOkB gap (groupByProximity gap fs) = true) ∧
    proximityTrips 2880
      [⟨"AAA", "BBB", "", "", "", 0, 1000⟩, ⟨"BBB", "CCC", "", "", "", 3880, 4000⟩] =
      [[⟨"AAA", "BBB", "", "", "", 0, 1000⟩, ⟨"BBB", "CCC", "", "", "", 3880, 4000⟩]] ∧
    proximityTrips 2880
      [⟨"AAA", "BBB", "", "", "", 0, 1000⟩, ⟨"BBB", "CCC", "", "", "", 3881, 4000⟩] = [] := by
  refine ⟨?_, by decide, by decide⟩
  intro gap fs
  cases fs with
  | nil => exact ⟨rfl, rfl, rfl⟩
  | cons f rest =>
    simp only [groupByProximity]
    rw [proxAux_eq]
    refine ⟨?_, ?_, ?_⟩
    · show (([f] ++ (proxSplit gap f rest).1) ++ ((proxSplit gap f rest).2).flatten) = f :: rest
      show f :: ((proxSplit gap f rest).1 ++ ((proxSplit gap f rest).2).flatten) = f :: rest
      rw [proxSplit_cover]
    · show (chainFromB gap f (proxSplit gap f rest).1 &&
        ((proxSplit gap f rest).2).all (fun g => clusterChainB gap g)) = true
      rw [Bool.and_eq_true]
      exact ⟨proxSplit_chain gap rest f, proxSplit_clusters gap rest f⟩
    · show boundariesOkB gap ((f :: (proxSplit gap f rest).1) :: (proxSplit gap f rest).2) = true
      exact proxSplit_boundaries gap rest f

theorem findPartner_some_length (gap : Int) (s1 : Int × Int) :
    ∀ (rest : List (List Flight)) (g2 : List Flight) (rest' : List (List Flight)),
      findPartner gap s1 rest = some (g2, rest') → rest'.length + 1 = rest.length := by
  intro rest
  induction rest with
  | nil => intro g2 rest' h; exact absurd h (by simp [findPartner])
  | cons g rest ih =>
    intro g2 rest' h
    unfold findPartner at h
    cases hs : groupSpan g with
    | none =>
      rw [hs] at h
      dsimp only at h
      cases hr : findPartner gap s1 rest with
      | none => rw [hr] at h; exact absurd h (by simp)
      | some p =>
        rw [hr] at h
        simp only [Option.map_some', Option.some.injEq, Prod.mk.injEq] at h
        obtain ⟨h1, h2⟩ := h
        subst h2
        simp only [List.length_cons]
        rw [← ih p.1 p.2 (by rw [hr])]
    | some s2 =>
      rw [hs] at h
      dsimp only at h
      by_cases hov : spansOverlap gap s1 s2 = true
      · rw [if_pos hov] at h
        simp only [Option.some.injEq, Prod.mk.injEq] at h
        obtain ⟨h1, h2⟩ := h
        subst h2
        simp
      · rw [if_neg hov] at h
        cases hr : findPartner gap s1 rest with
        | none => rw [hr] at h; exact absurd h (by simp)
        | some p =>
          rw [hr] at h
          simp only [Option.map_some', Option.some.injEq, Prod.mk.injEq] at h
          obtain ⟨h1, h2⟩ := h
          subst h2
          simp only [List.length_cons]
          rw [← ih p.1 p.2 (by rw [hr])]

theorem findPartner_none_all (gap : Int) (s1 : Int × Int) :
    ∀ rest : List (List Flight), findPartner gap s1 rest = none →
      ∀ h ∈ rest, ∀ s2, groupSpan h = some s2 → spansOverlap gap s1 s2 = false := by
  intro rest
  induction rest with
  | nil => intro _ hg hmem; exact absurd hmem (List.not_mem_nil hg)
  | cons g rest ih =>
    intro hnone hg hmem s2 hs2
    unfold findPartner at hnone
    rcases List.mem_cons.mp hmem with heq | hmem'
    · subst heq
      rw [hs2] at hnone
      dsimp only at hnone
      by_cases hov : spansOverlap gap s1 s2 = true
      · rw [if_pos hov] at hnone; exact absurd hnone (by simp)
      · exact Bool.eq_false_iff.mpr hov
    · cases hs : groupSpan g with
      | none =>
        rw [hs] at hnone
        dsimp only at hnone
        cases hr : findPartner gap s1 rest with
        | none => exact ih hr hg hmem' s2 hs2
        | some p => rw [hr] at hnone; exact absurd hnone (by simp)
      | some sg =>
        rw [hs] at hnone
        dsimp only at hnone
        by_cases hov : spansOverlap gap s1 sg = true
        · rw [if_pos hov] at hnone; exact absurd hnone (by simp)
        · rw [if_neg hov] at hnone
          cases hr : findPartner gap s1 rest with
          | none => exact ih hr hg hmem' s2 hs2
          | some p => rw [hr] at hnone; exact absurd hnone (by simp)

theorem mergeStep_some_length (gap : Int) :
    ∀ gs gs' : List (List Flight), mergeStep gap gs = some gs' → gs'.length + 1 = gs.length := by
  intro gs
  induction gs with
  | nil => intro gs' h; exact absurd h (by simp [mergeStep])
  | cons g1 rest ih =>
    intro gs' h
    unfold mergeStep at h
    cases hs : groupSpan g1 with
    | none =>
      rw [hs] at h
      cases hr : mergeStep gap rest with
      | none => rw [hr] at h; exact absurd h (by simp)
      | some gs2 =>
        rw [hr] at h
        simp only [Option.map_some', Option.some.injEq] at h
        subst h
        simp only [List.length_cons]
        rw [ih gs2 hr]
    | some s1 =>
      rw [hs] at h
      dsimp only at h
      cases hp : findPartner gap s1 rest with
      | some p =>
        rw [hp] at h
        simp only [Option.some.injEq] at h
        subst h
        simp only [List.length_cons]
        rw [findPartner_some_length gap s1 rest p.1 p.2 (by rw [hp])]
      | none =>
        rw [hp] at h
        cases hr : mergeStep gap rest with
        | none => rw [hr] at h; exact absurd h (by simp)
        | some gs2 =>
          rw [hr] at h
          simp only [Option.map_some', Option.some.injEq] at h
          subst h
          simp only [List.length_cons]
          rw [ih gs2 hr]

theorem mergeStep_none_noOverlap (gap : Int) :
    ∀ gs : List (List Flight), mergeStep gap gs = none → noOverlapPairsB gap gs = true := by
  intro gs
  induction gs with
  | nil => intro _; rfl
  | cons g1 rest ih =>
    intro h
    unfold mergeStep at h
    unfold noOverlapPairsB
    rw [Bool.and_eq_true]
    cases hs : groupSpan g1 with
    | none =>
      rw [hs] at h
      have hrest : mergeStep gap rest = none := by
        cases hr : mergeStep gap rest with
        | none => rfl
        | some gs2 => rw [hr] at h; exact absurd h (by simp)
      refine ⟨?_, ih hrest⟩
      rw [List.all_eq_true]
      intro g2 _
      cases groupSpan g2 <;> rfl
    | some s1 =>
      rw [hs] at h
      dsimp only at h
      cases hp : findPartner gap s1 rest with
      | some p => rw [hp] at h; exact absurd h (by simp)
      | none =>
        rw [hp] at h
        have hrest : mergeStep gap rest = none := by
          cases hr : mergeStep gap rest with
          | none => rfl
          | some gs2 => rw [hr] at h; exact absurd h (by simp)
        refine ⟨?_, ih hrest⟩
        rw [List.all_eq_true]
        intro g2 hg2
        cases hs2 : groupSpan g2 with
        | none => rfl
        | some s2 =>
          dsimp only
          rw [findPartner_none_all gap s1 rest hp g2 hg2 s2 hs2]
          rfl

theorem mergeLoop_reaches_fixpoint (gap : Int) :
    ∀ (fuel : Nat) (gs : List (List Flight)), gs.length ≤ fuel →
      mergeStep gap (mergeLoop gap fuel gs) = none := by
  intro fuel
  induction fuel with
  | zero =>
    intro gs hlen
    have : gs = [] := List.length_eq_zero.mp (Nat.le_zero.mp hlen)
    subst this
    rfl
  | succ n ih =>
    intro gs hlen
    unfold mergeLoop
    cases hstep : mergeStep gap gs with
    | none => exact hstep
    | some gs' =>
      have hl := mergeStep_some_length gap gs gs' hstep
      exact ih gs' (by omega)

/-- C4 (amended): the merge pass of `_merge_overlapping_groups` is a
fixed-point computation over the spans the code computes (earliest
departure to the arrival of the latest-departing flight): when it
terminates, no two remaining trips with flights satisfy the overlap
condition `start1 <= end2 + gap && start2 <= end1 + gap`; and on a
concrete chain of three trips where A overlaps B and B overlaps C but A
does not directly overlap C, all three end up as one trip. -/
theorem merge_fixed_point_amended :
    (∀ (gap : Int) (gs : List (List Flight)),
      noOverlapPairsB gap (mergeOverlappingGroups gap gs) = true) ∧
    (mergeOverlappingGroups 2880
        [[⟨"AAA", "BBB", "", "", "", 0, 100⟩],
         [⟨"BBB", "CCC", "", "", "", 2000, 2100⟩],
         [⟨"CCC", "DDD", "", "", "", 4000, 4100⟩]] =
      [[⟨"AAA", "BBB", "", "", "", 0, 100⟩,
        ⟨"BBB", "CCC", "", "", "", 2000, 2100⟩,
        ⟨"CCC", "DDD", "", "", "", 4000, 4100⟩]] ∧
     (match groupSpan [⟨"AAA", "BBB", "", "", "", 0, 100⟩],
            groupSpan [⟨"CCC", "DDD", "", "", "", 4000, 4100⟩] with
      | some s1, some s2 => spansOverlap 2880 s1 s2
      | _, _ => true) = false) := by
  constructor
  · intro gap gs
    exact mergeStep_none_noOverlap gap _
      (mergeLoop_reaches_fixpoint gap gs.length gs (le_refl _))
  · constructor
    · decide
    · decide

/-- C4 (counterexample): with spans read as the claim words them —
earliest departure to LATEST arrival — three concrete trips where A
overlaps B, B overlaps C and A does not directly overlap C do NOT all
end up as one trip: the pass terminates with two trips, and the two
remaining trips still satisfy the claim's overlap condition.  The code's
span end is the arrival of the latest-departing flight, not the latest
arrival, and a merged group can therefore stop overlapping what its part
overlapped. -/
theorem merge_overlap_counterexample :
    (match claimSpan [⟨"PPP", "QQQ", "", "", "", 17600, 17610⟩],
           claimSpan [⟨"PPP", "QQQ", "", "", "", 17500, 19000⟩] with
     | some s1, some s2 => spansOverlap 2880 s1 s2
     | _, _ => false) = true ∧
    (match claimSpan [⟨"PPP", "QQQ", "", "", "", 17500, 19000⟩],
           claimSpan [⟨"PPP", "QQQ", "", "", "", 21000, 21010⟩] with
     | some s1, some s2 => spansOverlap 2880 s1 s2
     | _, _ => false) = true ∧
    (match claimSpan [⟨"PPP", "QQQ", "", "", "", 17600, 17610⟩],
           claimSpan [⟨"PPP", "QQQ", "", "", "", 21000, 21010⟩] with
     | some s1, some s2 => spansOverlap 2880 s1 s2
     | _, _ => false) = false ∧
    mergeOverlappingGroups 2880
      [[⟨"PPP", "QQQ", "", "", "", 17600, 17610⟩],
       [⟨"PPP", "QQQ", "", "", "", 17500, 19000⟩],
       [⟨"PPP", "QQQ", "", "", "", 21000, 21010⟩]] =
      [[⟨"PPP", "QQQ", "", "", "", 17600, 17610⟩, ⟨"PPP", "QQQ", "", "", "", 17500, 19000⟩],
       [⟨"PPP", "QQQ", "", "", "", 21000, 21010⟩]] ∧
    (match claimSpan [⟨"PPP", "QQQ", "", "", "", 17600, 17610⟩, ⟨"PPP", "QQQ", "", "", "", 17500, 19000⟩],
           claimSpan [⟨"PPP", "QQQ", "", "", "", 21000, 21010⟩] with
     | some s1, some s2 => spansOverlap 2880 s1 s2
     | _, _ => false) = true := by
  refine ⟨by decide, by decide, by decide, by decide, by decide⟩

theorem buildSegs_length (arrA : String) :
    ∀ (conns : List LatamConn) (p f : String),
      (buildLatamSegments p f arrA conns).length = conns.length + 1 := by
  intro conns
  induction conns with
  | nil => intro p f; rfl
  | cons c rest ih => intro p f; simp only [buildLatamSegments, List.length_cons, ih]

theorem buildSegs_dep_map (arrA : String) :
    ∀ (conns : List LatamConn) (p f : String),
      (buildLatamSegments p f arrA conns).map (fun s => s.dep_airport) =
        p :: conns.map (fun c => c.airport) := by
  intro conns
  induction conns with
  | nil => intro p f; rfl
  | cons c rest ih => intro p f; simp only [buildLatamSegments, List.map_cons, ih]

theorem buildSegs_arr_map (arrA : String) :
    ∀ (conns : List LatamConn) (p f : String),
      (buildLatamSegments p f arrA conns).map (fun s => s.arr_airport) =
        conns.map (fun c => c.airport) ++ [arrA] := by
  intro conns
  induction conns with
  | nil => intro p f; rfl
  | cons c rest ih => intro p f; simp only [buildLatamSegments, List.map_cons, ih, List.cons_append]

theorem buildSegs_flight_map (arrA : String) :
    ∀ (conns : List LatamConn) (p f : String),
      (buildLatamSegments p f arrA conns).map (fun s => s.flight_number) =
        f :: conns.map (fun c => c.flight_number) := by
  intro conns
  induction conns with
  | nil => intro p f; rfl
  | cons c rest ih => intro p f; simp only [buildLatamSegments, List.map_cons, ih]

theorem buildSegs_lay_map (arrA : String) :
    ∀ (conns : List LatamConn) (p f : String),
      (buildLatamSegments p f arrA conns).map (fun s => (s.layover_after_minutes : Rat)) =
        conns.map (fun c => (c.layover_minutes : Rat)) ++ [(0 : Rat)] := by
  intro conns
  induction conns with
  | nil => intro p f; simp [buildLatamSegments]
  | cons c rest ih => intro p f; simp only [buildLatamSegments, List.map_cons, ih, List.cons_append]

theorem assign_flight_map (fps : Rat) :
    ∀ (segs : List LatamSeg) (t : Rat),
      (assignLatamTimes fps t segs).map (fun l => l.flight_number) =
        segs.map (fun s => s.flight_number) := by
  intro segs
  induction segs with
  | nil => intro t; rfl
  | cons s rest ih => intro t; simp only [assignLatamTimes, List.map_cons, ih]

theorem assign_dep_airport_map (fps : Rat) :
    ∀ (segs : List LatamSeg) (t : Rat),
      (assignLatamTimes fps t segs).map (fun l => l.departure_airport) =
        segs.map (fun s => s.dep_airport) := by
  intro segs
  induction segs with
  | nil => intro t; rfl
  | cons s rest ih => intro t; simp only [assignLatamTimes, List.map_cons, ih]

theorem assign_arr_airport_map (fps : Rat) :
    ∀ (segs : List LatamSeg) (t : Rat),
      (assignLatamTimes fps t segs).map (fun l => l.arrival_airport) =
        segs.map (fun s => s.arr_airport) := by
  intro segs
  induction segs with
  | nil => intro t; rfl
  | cons s rest ih => intro t; simp only [assignLatamTimes, List.map_cons, ih]

theorem assign_duration_map (fps : Rat) :
    ∀ (segs : List LatamSeg) (t : Rat),
      (assignLatamTimes fps t segs).map (fun l => l.arrival_seconds - l.departure_seconds) =
        List.replicate segs.length fps := by
  intro segs
  induction segs with
  | nil => intro t; rfl
  | cons s rest ih =>
    intro t
    simp only [assignLatamTimes, List.map_cons, ih, List.length_cons, List.replicate_succ]
    congr 1
    ring

theorem assign_dep_time_map (fps : Rat) :
    ∀ (segs : List LatamSeg) (t : Rat),
      (assignLatamTimes fps t segs).map (fun l => l.departure_seconds) =
        (List.range segs.length).map (fun k =>
          t + k * fps + 60 * ((segs.take k).map (fun s => (s.layover_after_minutes : Rat))).sum) := by
  intro segs
  induction segs with
  | nil => intro t; rfl
  | cons s rest ih =>
    intro t
    simp only [assignLatamTimes, List.map_cons, List.length_cons]
    rw [List.range_succ_eq_map, List.map_cons, List.map_map]
    rw [ih (t + fps + 60 * (s.layover_after_minutes : Rat))]
    congr 1
    · simp
    · refine List.map_congr_left ?_
      intro k hk
      simp only [Function.comp_apply, List.take_succ_cons, List.map_cons, List.sum_cons]
      push_cast
      ring

theorem segs_take_lay (p f arrA : String) (conns : List LatamConn) (k : Nat)
    (hk : k ≤ conns.length) :
    ((buildLatamSegments p f arrA conns).take k).map (fun s => (s.layover_after_minutes : Rat)) =
      (conns.take k).map (fun c => (c.layover_minutes : Rat)) := by
  rw [List.map_take, List.map_take, buildSegs_lay_map, List.take_append_of_le_length]
  simpa using hk

/-- C2: for a LATAM itinerary block with `n` connection markers, the
extraction builds an ordered chain of `n + 1` legs from the block's
departure airport through each connection airport to the block's arrival
airport, assigns every leg the same flight duration — elapsed time minus
total declared layover, divided by the number of segments — starts each
leg at the previous leg's arrival plus that leg's layover (closed form:
leg `k` departs at `depT + k * fps + 60 * (layovers before k)`), and
produces zero legs when elapsed time minus total layover is not
positive. -/
theorem latam_connection_interpolation (depA arrA ff : String) (conns : List LatamConn)
    (depT arrT : Rat) (hff : ff ≠ "") (hdep : depA ≠ "") (harr : arrA ≠ "")
    (hconn : ∀ c ∈ conns, c.airport ≠ "" ∧ c.flight_number ≠ "") :
    ((arrT - depT) - latamTotalLayover (buildLatamSegments depA ff arrA conns) ≤ 0 →
      extractLatamConnectionLegs depA arrA ff conns depT arrT = []) ∧
    (0 < (arrT - depT) - latamTotalLayover (buildLatamSegments depA ff arrA conns) →
      ((extractLatamConnectionLegs depA arrA ff conns depT arrT).length = conns.length + 1 ∧
       (extractLatamConnectionLegs depA arrA ff conns depT arrT).map (fun l => l.departure_airport) =
         depA :: conns.map (fun c => c.airport) ∧
       (extractLatamConnectionLegs depA arrA ff conns depT arrT).map (fun l => l.arrival_airport) =
         conns.map (fun c => c.airport) ++ [arrA] ∧
       (extractLatamConnectionLegs depA arrA ff conns depT arrT).map (fun l => l.flight_number) =
         ff :: conns.map (fun c => c.flight_number) ∧
       (extractLatamConnectionLegs depA arrA ff conns depT arrT).map
           (fun l => l.arrival_seconds - l.departure_seconds) =
         List.replicate (conns.length + 1)
           (((arrT - depT) - latamTotalLayover (buildLatamSegments depA ff arrA conns)) /
             ((conns.length + 1 : Nat) : Rat)) ∧
       (extractLatamConnectionLegs depA arrA ff conns depT arrT).map (fun l => l.departure_seconds) =
         (List.range (conns.length + 1)).map (fun k : Nat =>
           depT +
             (k : Rat) * (((arrT - depT) - latamTotalLayover (buildLatamSegments depA ff arrA conns)) /
               ((conns.length + 1 : Nat) : Rat)) +
             60 * ((conns.take k).map (fun c => (c.layover_minutes : Rat))).sum))) := by
  constructor
  · intro hnp
    unfold extractLatamConnectionLegs
    rw [if_pos (Or.inl hnp)]
  · intro hpos
    unfold extractLatamConnectionLegs
    rw [if_neg]
    case hnc =>
      push_neg
      constructor
      · linarith
      · rw [buildSegs_length]; omega
    have hpred : ∀ l ∈ assignLatamTimes
        (((arrT - depT) - latamTotalLayover (buildLatamSegments depA ff arrA conns)) /
          (((buildLatamSegments depA ff arrA conns).length : Nat) : Rat)) depT
        (buildLatamSegments depA ff arrA conns),
        (l.flight_number ≠ "" && l.departure_airport ≠ "" && l.arrival_airport ≠ "") = true := by
      intro l hl
      have h1 : l.flight_number ∈ ff :: conns.map (fun c => c.flight_number) := by
        have hm := List.mem_map_of_mem (fun x : LatamLeg => x.flight_number) hl
        rw [assign_flight_map, buildSegs_flight_map] at hm
        exact hm
      have h2 : l.departure_airport ∈ depA :: conns.map (fun c => c.airport) := by
        have hm := List.mem_map_of_mem (fun x : LatamLeg => x.departure_airport) hl
        rw [assign_dep_airport_map, buildSegs_dep_map] at hm
        exact hm
      have h3 : l.arrival_airport ∈ conns.map (fun c => c.airport) ++ [arrA] := by
        have hm := List.mem_map_of_mem (fun x : LatamLeg => x.arrival_airport) hl
        rw [assign_arr_airport_map, buildSegs_arr_map] at hm
        exact hm
      have hf : l.flight_number ≠ "" := by
        rcases List.mem_cons.mp h1 with h | h
        · rw [h]; exact hff
        · obtain ⟨c, hc, hceq⟩ := List.mem_map.mp h
          rw [← hceq]; exact (hconn c hc).2
      have hd : l.departure_airport ≠ "" := by
        rcases List.mem_cons.mp h2 with h | h
        · rw [h]; exact hdep
        · obtain ⟨c, hc, hceq⟩ := List.mem_map.mp h
          rw [← hceq]; exact (hconn c hc).1
      have ha : l.arrival_airport ≠ "" := by
        rcases List.mem_append.mp h3 with h | h
        · obtain ⟨c, hc, hceq⟩ := List.mem_map.mp h
          rw [← hceq]; exact (hconn c hc).1
        · rw [List.mem_singleton.mp h]; exact harr
      simp [hf, hd, ha]
    rw [List.filter_eq_self.mpr hpred]
    rw [buildSegs_length]
    refine ⟨?_, ?_, ?_, ?_, ?_, ?_⟩
    · have := congrArg List.length (assign_flight_map
        (((arrT - depT) - latamTotalLayover (buildLatamSegments depA ff arrA conns)) /
          (((conns.length + 1 : Nat) : Nat) : Rat)) (buildLatamSegments depA ff arrA conns) depT)
      rw [buildSegs_flight_map] at this
      simpa using this
    · rw [assign_dep_airport_map, buildSegs_dep_map]
    · rw [assign_arr_airport_map, buildSegs_arr_map]
    · rw [assign_flight_map, buildSegs_flight_map]
    · rw [assign_duration_map, buildSegs_length]
    · rw [assign_dep_time_map, buildSegs_length]
      refine List.map_congr_left ?_
      intro k hk
      rw [List.mem_range] at hk
      rw [segs_take_lay depA ff arrA conns k (by omega)]

theorem length_dropWhile_le (p : Char → Bool) (l : List Char) :
    (l.dropWhile p).length ≤ l.length := by
  have h : (l.dropWhile p).Sublist l := List.dropWhile_sublist p
  exact h.length_le

theorem stripChars_length_le (l : List Char) : (stripChars l).length ≤ l.length := by
  unfold stripChars
  calc ((l.dropWhile isPyWs).reverse.dropWhile isPyWs).reverse.length
      = ((l.dropWhile isPyWs).reverse.dropWhile isPyWs).length := List.length_reverse _
    _ ≤ (l.dropWhile isPyWs).reverse.length := length_dropWhile_le _ _
    _ = (l.dropWhile isPyWs).length := List.length_reverse _
    _ ≤ l.length := length_dropWhile_le _ _

theorem stripChars_head {X : List Char} (h : stripChars X = X) :
    X = [] ∨ ∃ x xs, X = x :: xs ∧ isPyWs x = false := by
  cases hX : X with
  | nil => exact Or.inl rfl
  | cons x xs =>
    refine Or.inr ⟨x, xs, rfl, ?_⟩
    by_contra hws
    rw [Bool.not_eq_false] at hws
    have hlen : (stripChars (x :: xs)).length ≤ xs.length := by
      unfold stripChars
      rw [List.dropWhile_cons]
      simp only [hws, if_true]
      calc ((xs.dropWhile isPyWs).reverse.dropWhile isPyWs).reverse.length
          = ((xs.dropWhile isPyWs).reverse.dropWhile isPyWs).length := List.length_reverse _
        _ ≤ (xs.dropWhile isPyWs).reverse.length := length_dropWhile_le _ _
        _ = (xs.dropWhile isPyWs).length := List.length_reverse _
        _ ≤ xs.length := length_dropWhile_le _ _
    rw [hX] at h
    rw [h] at hlen
    simp at hlen

theorem takeWhile_append_all (p : Char → Bool) (y : Char) (t : List Char)
    (hy : p y = false) :
    ∀ X : List Char, (∀ a ∈ X, p a = true) →
      (X ++ y :: t).takeWhile p = X := by
  intro X
  induction X with
  | nil => intro _; simp [List.takeWhile_cons, hy]
  | cons x X' ih =>
    intro hall
    simp only [List.cons_append, List.takeWhile_cons, hall x (List.mem_cons_self x X'), if_true]
    rw [ih (fun a ha => hall a (List.mem_cons_of_mem x ha))]

theorem captureLine_value (V : List Char) (t : List Char)
    (h0 : V ≠ []) (hs : stripChars V = V) (hn : ('\n') ∉ V) :
    captureLine (' ' :: (V ++ ('\n' :: t))) = some V := by
  rcases stripChars_head hs with h | ⟨v, vs, hv, hws⟩
  · exact absurd h h0
  · unfold captureLine dropWs
    rw [List.dropWhile_cons]
    simp only [show isPyWs ' ' = true from rfl, if_true]
    rw [hv, List.cons_append, List.dropWhile_cons, hws]
    simp only [Bool.false_eq_true, if_false]
    rw [← List.cons_append, ← hv]
    rw [takeWhile_append_all _ '\n' t (by simp) V ?hall]
    case hall =>
      intro a ha
      simp only [decide_eq_true_eq]
      intro heq
      exact hn (heq ▸ ha)
    have hne : V.isEmpty = false := by
      rw [hv]; rfl
    simp only [hne, Bool.false_eq_true, if_false]
    rw [hs]

theorem stripLitCI_no_colon :
    ∀ (k : List Char), (∀ c ∈ k, c.toLower ≠ '\n') →
    ∀ (s l2 r : List Char), (∀ c ∈ s, c ≠ ':' ∧ c ≠ '\n') → l2.head? = some '\n' →
      stripLitCI k (s ++ l2) = some r → r.head? ≠ some ':' := by
  intro k
  induction k with
  | nil =>
    intro _ s l2 r hs hl2 hstrip
    simp only [stripLitCI, Option.some.injEq] at hstrip
    subst hstrip
    cases s with
    | nil =>
      simp only [List.nil_append]
      rw [hl2]
      simp
    | cons c s' =>
      simp only [List.cons_append, List.head?_cons]
      intro hcc
      exact (hs c (List.mem_cons_self c s')).1 (Option.some.inj hcc)
  | cons kc ks ih =>
    intro hk s l2 r hs hl2 hstrip
    cases s with
    | nil =>
      simp only [List.nil_append] at hstrip
      cases hl : l2 with
      | nil => rw [hl] at hstrip; exact absurd hstrip (by simp [stripLitCI])
      | cons c t =>
        rw [hl] at hl2
        simp only [List.head?_cons, Option.some.injEq] at hl2
        subst hl2
        rw [hl] at hstrip
        simp only [stripLitCI] at hstrip
        rw [if_neg] at hstrip
        · exact absurd hstrip (by simp)
        · intro hcc
          exact hk kc (List.mem_cons_self kc ks) (by rw [← hcc]; rfl)
    | cons c s' =>
      simp only [List.cons_append, stripLitCI] at hstrip
      by_cases hcc : c.toLower = kc.toLower
      · rw [if_pos hcc] at hstrip
        exact ih (fun x hx => hk x (List.mem_cons_of_mem kc hx)) s' l2 r
          (fun x hx => hs x (List.mem_cons_of_mem c hx)) hl2 hstrip
      · rw [if_neg hcc] at hstrip
        exact absurd hstrip (by simp)

theorem matchKeyAt_none :
    ∀ (keys : List (List Char)), (∀ k ∈ keys, ∀ c ∈ k, c.toLower ≠ '\n') →
    ∀ (s l2 : List Char), (∀ c ∈ s, c ≠ ':' ∧ c ≠ '\n') → l2.head? = some '\n' →
      matchKeyAt keys (s ++ l2) = none := by
  intro keys
  induction keys with
  | nil => intro _ s l2 _ _; rfl
  | cons k ks ih =>
    intro hk s l2 hs hl2
    unfold matchKeyAt
    cases hstrip : stripLitCI k (s ++ l2) with
    | none => exact ih (fun x hx => hk x (List.mem_cons_of_mem k hx)) s l2 hs hl2
    | some r =>
      have hno := stripLitCI_no_colon k (hk k (List.mem_cons_self k ks)) s l2 r hs hl2 hstrip
      dsimp only
      cases r with
      | nil => exact ih (fun x hx => hk x (List.mem_cons_of_mem k hx)) s l2 hs hl2
      | cons c r2 =>
        dsimp only
        have hcne : c ≠ ':' := by
          intro hcc
          exact hno (by simp [hcc])
        rw [if_neg hcne]
        exact ih (fun x hx => hk x (List.mem_cons_of_mem k hx)) s l2 hs hl2

theorem searchHeader_cons_none (keys : List (List Char)) (c : Char) (rest : List Char)
    (h : matchKeyAt keys (c :: rest) = none) :
    searchHeader keys (c :: rest) = searchHeader keys rest := by
  show (match (matchKeyAt keys (c :: rest)).bind captureLine with
        | some v => some v
        | none => searchHeader keys rest) = searchHeader keys rest
  rw [h]
  rfl

theorem searchHeader_skip (keys : List (List Char))
    (hk : ∀ k ∈ keys, ∀ c ∈ k, c.toLower ≠ '\n') :
    ∀ (X : List Char), (∀ c ∈ X, c ≠ ':' ∧ c ≠ '\n') → ∀ t : List Char,
      searchHeader keys (X ++ ('\n' :: t)) = searchHeader keys ('\n' :: t) := by
  intro X
  induction X with
  | nil => intro _ t; rfl
  | cons x X' ih =>
    intro hX t
    rw [List.cons_append]
    rw [searchHeader_cons_none keys x (X' ++ '\n' :: t)
      (matchKeyAt_none keys hk (x :: X') ('\n' :: t) hX rfl)]
    exact ih (fun a ha => hX a (List.mem_cons_of_mem x ha)) t

theorem findBlankEnd_skip : ∀ (X : List Char), ('\n') ∉ X → ∀ l2 : List Char,
    findBlankEnd (X ++ l2) = findBlankEnd l2 := by
  intro X
  induction X with
  | nil => intro _ l2; rfl
  | cons x X' ih =>
    intro hn l2
    have hx : x ≠ '\n' := fun hc => hn (hc ▸ List.mem_cons_self x X')
    rw [List.cons_append]
    show (if x = '\n' then
        match lastNlInRun (X' ++ l2) with
        | some rem => some rem
        | none => findBlankEnd (X' ++ l2)
      else findBlankEnd (X' ++ l2)) = findBlankEnd l2
    rw [if_neg hx]
    exact ih (fun hm => hn (List.mem_cons_of_mem x hm)) l2

theorem lastNlInRun_none_of_head {rest : List Char}
    (h : rest = [] ∨ ∃ r rs, rest = r :: rs ∧ isPyWs r = false) :
    lastNlInRun rest = none := by
  rcases h with h | ⟨r, rs, hr, hws⟩
  · subst h; rfl
  · subst hr
    show (if isPyWs r = true then
        match lastNlInRun rs with
        | some rem => some rem
        | none => if r = '\n' then some rs else none
      else none) = none
    rw [if_neg (by rw [hws]; exact Bool.false_ne_true)]

theorem findBlankEnd_double (rest : List Char)
    (h : rest = [] ∨ ∃ r rs, rest = r :: rs ∧ isPyWs r = false) :
    findBlankEnd ('\n' :: ('\n' :: rest)) = some rest := by
  have h1 : lastNlInRun ('\n' :: rest) = some rest := by
    show (if isPyWs '\n' = true then
        match lastNlInRun rest with
        | some rem => some rem
        | none => if ('\n') = '\n' then some rest else none
      else none) = some rest
    rw [lastNlInRun_none_of_head h]
    rfl
  show (if ('\n') = '\n' then
      match lastNlInRun ('\n' :: rest) with
      | some rem => some rem
      | none => findBlankEnd ('\n' :: rest)
    else findBlankEnd ('\n' :: rest)) = some rest
  rw [h1]
  rfl

/-- C8: for every body built of a Gmail-style forwarding marker followed
by a `From: X` line, a `Subject: Y` line, a blank line and body text —
with `X` and `Y` nonempty single-line stripped values, `X` free of
colons, and the body text stripped — the unwrap returns sender `X`,
subject `Y` and the text after the blank line; and for every body with
no forwarding marker it returns empty sender and subject and the full
body unchanged. -/
theorem forwarded_email_unwrap (X Y rest : List Char)
    (hX0 : X ≠ []) (hXs : stripChars X = X) (hXn : ('\n') ∉ X) (hXc : (':') ∉ X)
    (hY0 : Y ≠ []) (hYs : stripChars Y = Y) (hYn : ('\n') ∉ Y)
    (hrs : stripChars rest = rest) :
    extract_forwarded_email
        (gmailMarker ++ ('\n' :: (("From: ").data ++ (X ++ ('\n' ::
          (("Subject: ").data ++ (Y ++ ('\n' :: ('\n' :: rest))))))))) =
      (X, Y, rest) ∧
    (∀ body : List Char, findFwdStart body = none →
      extract_forwarded_email body = ([], [], body)) := by
  constructor
  · have hXchars : ∀ c ∈ X, c ≠ ':' ∧ c ≠ '\n' :=
      fun c hc => ⟨fun h => hXc (h ▸ hc), fun h => hXn (h ▸ hc)⟩
    have hsubkeys : ∀ k ∈ subjectKeys, ∀ c ∈ k, c.toLower ≠ '\n' := by decide
    have hfwd : findFwdStart
        (gmailMarker ++ ('\n' :: (("From: ").data ++ (X ++ ('\n' ::
          (("Subject: ").data ++ (Y ++ ('\n' :: ('\n' :: rest))))))))) =
        some ('\n' :: (("From: ").data ++ (X ++ ('\n' ::
          (("Subject: ").data ++ (Y ++ ('\n' :: ('\n' :: rest)))))))) := rfl
    have hFrom : searchHeader fromKeys
        ('\n' :: (("From: ").data ++ (X ++ ('\n' ::
          (("Subject: ").data ++ (Y ++ ('\n' :: ('\n' :: rest)))))))) = some X := by
      have step : searchHeader fromKeys
          ('\n' :: (("From: ").data ++ (X ++ ('\n' ::
            (("Subject: ").data ++ (Y ++ ('\n' :: ('\n' :: rest)))))))) =
          (match captureLine (' ' :: (X ++ ('\n' ::
              (("Subject: ").data ++ (Y ++ ('\n' :: ('\n' :: rest))))))) with
           | some v => some v
           | none => searchHeader fromKeys (("rom: ").data ++ (X ++ ('\n' ::
              (("Subject: ").data ++ (Y ++ ('\n' :: ('\n' :: rest)))))))) := rfl
      rw [step, captureLine_value X
        (("Subject: ").data ++ (Y ++ ('\n' :: ('\n' :: rest)))) hX0 hXs hXn]
    have hSubj : searchHeader subjectKeys
        ('\n' :: (("From: ").data ++ (X ++ ('\n' ::
          (("Subject: ").data ++ (Y ++ ('\n' :: ('\n' :: rest)))))))) = some Y := by
      have step1 : searchHeader subjectKeys
          ('\n' :: (("From: ").data ++ (X ++ ('\n' ::
            (("Subject: ").data ++ (Y ++ ('\n' :: ('\n' :: rest)))))))) =
          searchHeader subjectKeys (X ++ ('\n' ::
            (("Subject: ").data ++ (Y ++ ('\n' :: ('\n' :: rest)))))) := rfl
      rw [step1, searchHeader_skip subjectKeys hsubkeys X hXchars
        (("Subject: ").data ++ (Y ++ ('\n' :: ('\n' :: rest))))]
      have step2 : searchHeader subjectKeys
          ('\n' :: (("Subject: ").data ++ (Y ++ ('\n' :: ('\n' :: rest))))) =
          (match captureLine (' ' :: (Y ++ ('\n' :: ('\n' :: rest)))) with
           | some v => some v
           | none => searchHeader subjectKeys
              (("ubject: ").data ++ (Y ++ ('\n' :: ('\n' :: rest))))) := rfl
      rw [step2, captureLine_value Y ('\n' :: rest) hY0 hYs hYn]
    have hBlank : findBlankEnd
        ('\n' :: (("From: ").data ++ (X ++ ('\n' ::
          (("Subject: ").data ++ (Y ++ ('\n' :: ('\n' :: rest)))))))) = some rest := by
      have step1 : findBlankEnd
          ('\n' :: (("From: ").data ++ (X ++ ('\n' ::
            (("Subject: ").data ++ (Y ++ ('\n' :: ('\n' :: rest)))))))) =
          findBlankEnd (X ++ ('\n' ::
            (("Subject: ").data ++ (Y ++ ('\n' :: ('\n' :: rest)))))) := rfl
      rw [step1, findBlankEnd_skip X hXn]
      have step2 : findBlankEnd
          ('\n' :: (("Subject: ").data ++ (Y ++ ('\n' :: ('\n' :: rest))))) =
          findBlankEnd (Y ++ ('\n' :: ('\n' :: rest))) := rfl
      rw [step2, findBlankEnd_skip Y hYn]
      exact findBlankEnd_double rest (stripChars_head hrs)
    unfold extract_forwarded_email
    rw [hfwd]
    dsimp only
    rw [hFrom, hSubj, hBlank]
    dsimp only
    rw [hrs]
    rfl
  · intro body h
    unfold extract_forwarded_email
    rw [h]

theorem buildDatetimeMinutes_eq {day : Int} {h m : Nat} {t : Int}
    (hb : buildDatetimeMinutes day h m = some t) :
    t = day * 1440 + (h : Int) * 60 + (m : Int) ∧ h ≤ 23 ∧ m ≤ 59 := by
  unfold buildDatetimeMinutes at hb
  split at hb
  next hc =>
    simp only [Option.some.injEq] at hb
    simp only [Bool.and_eq_true, decide_eq_true_eq] at hc
    exact ⟨hb.symm, hc.1, hc.2⟩
  next => exact absurd hb (by simp)

/-- C10: every leg the SAS structured extractor produces satisfies
`departure <= arrival`: both instants come from the same section-header
date, and when the arrival built on that date precedes the departure the
arrival is rebuilt on the next day, which can only move it past the
departure because a valid time of day is under 24 hours. -/
theorem sas_overnight_arrival_ordered (day : Int) (dh dm ah am : Nat) (dep arr : Int)
    (h : sasLegTimes day dh dm ah am = some (dep, arr)) : dep ≤ arr := by
  unfold sasLegTimes at h
  cases hd : buildDatetimeMinutes day dh dm with
  | none => rw [hd] at h; exact absurd h (by simp)
  | some dep0 =>
    cases ha : buildDatetimeMinutes day ah am with
    | none => rw [hd, ha] at h; exact absurd h (by simp)
    | some arr0 =>
      rw [hd, ha] at h
      simp only at h
      obtain ⟨hdv, hdh, hdm⟩ := buildDatetimeMinutes_eq hd
      by_cases hlt : arr0 < dep0
      · rw [if_pos hlt] at h
        cases ha2 : buildDatetimeMinutes (day + 1) ah am with
        | none => rw [ha2] at h; exact absurd h (by simp)
        | some arr2 =>
          rw [ha2] at h
          simp only [Option.some.injEq, Prod.mk.injEq] at h
          obtain ⟨hav, hah, ham⟩ := buildDatetimeMinutes_eq ha2
          omega
      · rw [if_neg hlt] at h
        simp only [Option.some.injEq, Prod.mk.injEq] at h
        omega

theorem sas_overnight_arrival_ordered_witness :
    sasLegTimes 0 23 30 0 25 = some (1410, 1465) ∧ (1410 : Int) ≤ 1465 :=
  ⟨by decide, sas_overnight_arrival_ordered 0 23 30 0 25 1410 1465 (by decide)⟩

/-- C7: the Azul extraction path resolves a year-less `DD/MM` date
against the message's received date — building the candidate in the
received year and advancing one year exactly when the candidate precedes
the received date — and prefixes a bare-digit flight number with the
rule's airline code; concretely, `02/03` received on 2026-02-15 resolves
to 2026-03-02 and `"4849"` with code `"AD"` becomes `"AD4849"`. -/
theorem azul_year_inference (d m ry : Nat) (e : SimpleDate)
    (h1 : validDate ry m d = true) (h2 : validDate (ry + 1) m d = true) :
    parse_ddmm_date d m ry (some e) =
      some (if dateBefore ⟨ry, m, d⟩ e then ⟨ry + 1, m, d⟩ else ⟨ry, m, d⟩) ∧
    parse_ddmm_date 2 3 2026 (some ⟨2026, 2, 15⟩) = some ⟨2026, 3, 2⟩ ∧
    prefixFlightNumber ("4849") ("AD") = "AD4849" := by
  refine ⟨?_, by decide, by decide⟩
  unfold parse_ddmm_date
  rw [if_pos h1]
  by_cases hb : dateBefore ⟨ry, m, d⟩ e = true
  · simp only [hb, if_true, h2, if_pos]
  · simp only [Bool.not_eq_true] at hb
    simp [hb]

theorem azul_year_inference_witness :
    validDate 2026 3 2 = true ∧
    (parse_ddmm_date 2 3 2026 (some ⟨2026, 2, 15⟩) =
        some (if dateBefore ⟨2026, 3, 2⟩ ⟨2026, 2, 15⟩ then ⟨2026 + 1, 3, 2⟩ else ⟨2026, 3, 2⟩) ∧
      parse_ddmm_date 2 3 2026 (some ⟨2026, 2, 15⟩) = some ⟨2026, 3, 2⟩ ∧
      prefixFlightNumber ("4849") ("AD") = "AD4849") :=
  ⟨by decide, azul_year_inference 2 3 2026 ⟨2026, 2, 15⟩ (by decide) (by decide)⟩

theorem find?_arr_eq (origin d : String) (l : List Flight) :
    (match l.find? (fun x => x.arrival_airport ≠ origin) with
     | some x => x.arrival_airport
     | none => d) =
    (match (l.map (fun x => x.arrival_airport)).find? (fun a => a ≠ origin) with
     | some a => a
     | none => d) := by
  induction l with
  | nil => rfl
  | cons x xs ih =>
    simp only [List.map_cons, List.find?_cons]
    cases hd : decide (x.arrival_airport ≠ origin) with
    | false => simp only [hd]; exact ih
    | true => simp only [hd]

/-- C1 (counterexample): for the one-way itinerary O→X then X→Y, the
trip created by the Trip Grouper reports destination X — the arrival of
the FIRST flight whose arrival differs from the origin — while the last
flight's arrival (the claim's predicted destination, which
`_find_trip_destination` indeed returns) is Y. -/
theorem trip_destination_counterexample :
    createGroupDestination
        [⟨"O", "X", "", "", "", 0, 100⟩, ⟨"X", "Y", "", "", "", 3000, 3100⟩] =
      some ("O", "X") ∧
    find_trip_destination
        [⟨"O", "X", "", "", "", 0, 100⟩, ⟨"X", "Y", "", "", "", 3000, 3100⟩] ("O") = "Y" ∧
    ("X" : String) ≠ "Y" := by
  refine ⟨by decide, by decide, by decide⟩

/-- C1 (amended): the name of every trip the Trip Grouper creates or
renames uses as origin the first flight's departure airport and as
destination the arrival airport of the first flight, in departure order,
whose arrival differs from the origin, falling back to the last flight's
arrival; the rule the claim states — last arrival when it differs from
the origin, else the first arrival before a stay of at least 24 h, else
the midpoint fallback — is computed by `_find_trip_destination` (the
`FlightGroup.destination` property), shown here on a one-way trip, a
round trip with a 24 h stay, and a round trip of short connections. -/
theorem trip_destination_amended :
    (∀ flights : List Flight, createGroupDestination flights = amendedNameDestination flights) ∧
    find_trip_destination
      [⟨"O", "X", "", "", "", 0, 100⟩, ⟨"X", "Y", "", "", "", 3000, 3100⟩] ("O") = "Y" ∧
    find_trip_destination
      [⟨"O", "X", "", "", "", 0, 100⟩, ⟨"X", "O", "", "", "", 1600, 1700⟩] ("O") = "X" ∧
    find_trip_destination
      [⟨"O", "A", "", "", "", 0, 100⟩, ⟨"A", "B", "", "", "", 200, 300⟩,
       ⟨"B", "A", "", "", "", 400, 500⟩, ⟨"A", "O", "", "", "", 600, 700⟩] ("O") = "B" := by
  refine ⟨?_, by decide, by decide, by decide⟩
  intro flights
  unfold createGroupDestination amendedNameDestination
  cases hs : sortByDeparture flights with
  | nil => rfl
  | cons f fs =>
    simp only [Option.some.injEq, Prod.mk.injEq, true_and]
    exact find?_arr_eq f.departure_airport (fs.getLastD f).arrival_airport (f :: fs)

/-- C3: evaluated at a message holding both a plain-text part and an
HTML part, `get_email_body` returns the two texts COMBINED into one
string separated by a blank line, and the `EmailMessage` built from it
carries that single combined `body` — equal to neither the plain text
alone nor the HTML-derived text alone — while `extract_flights_from_email`
dereferences an `html_body` attribute that `EmailMessage` never sets. -/
theorem email_body_single_combined_string :
    get_email_body (RawMime.multipart
      [⟨"text/plain", "Plain itinerary"⟩, ⟨"text/html", "<p>HTML itinerary</p>"⟩]) =
      "Plain itinerary\n\nHTML itinerary" ∧
    (EmailMessage.mk ("mid-1") ("noreply@latam.com") ("Itinerary")
      (get_email_body (RawMime.multipart
        [⟨"text/plain", "Plain itinerary"⟩, ⟨"text/html", "<p>HTML itinerary</p>"⟩])) none).body ≠
      "Plain itinerary" ∧
    (EmailMessage.mk ("mid-1") ("noreply@latam.com") ("Itinerary")
      (get_email_body (RawMime.multipart
        [⟨"text/plain", "Plain itinerary"⟩, ⟨"text/html", "<p>HTML itinerary</p>"⟩])) none).body ≠
      "HTML itinerary" := by
  refine ⟨by decide, by decide, by decide⟩

/-- C6: the dedup check of `process_email_for_flights` preserves the
invariant that no two of a user's flight rows share the dedup key
(stored in `email_message_id`), and running the same message's legs a
second time against the resulting database is a complete no-op: every
key is already present, so the second run creates no row. -/
theorem dedup_invariant_preserved (db : List FlightRow) (msgId : String)
    (legs : List ExtractedLeg)
    (hdb : db.Pairwise (fun a b => a.email_message_id ≠ b.email_message_id)) :
    ((processLegs db msgId legs).1).Pairwise
      (fun a b => a.email_message_id ≠ b.email_message_id) ∧
    processLegs (processLegs db msgId legs).1 msgId legs =
      ((processLegs db msgId legs).1, []) := by
  constructor
  · exact pairwise_key_processLegs msgId legs db hdb
  · exact processLegs_skip_all msgId legs (processLegs db msgId legs).1
      (fun l hl => processLegs_key_mem msgId legs db l hl)

theorem dedup_invariant_preserved_witness :
    ([] : List FlightRow).Pairwise (fun a b => a.email_message_id ≠ b.email_message_id) ∧
    (((processLegs [] ("m1") [⟨"LA123", "GRU", "SCL", 0, 100⟩]).1).Pairwise
        (fun a b => a.email_message_id ≠ b.email_message_id) ∧
      processLegs (processLegs [] ("m1") [⟨"LA123", "GRU", "SCL", 0, 100⟩]).1 ("m1")
          [⟨"LA123", "GRU", "SCL", 0, 100⟩] =
        ((processLegs [] ("m1") [⟨"LA123", "GRU", "SCL", 0, 100⟩]).1, [])) :=
  ⟨List.Pairwise.nil,
    dedup_invariant_preserved [] ("m1") [⟨"LA123", "GRU", "SCL", 0, 100⟩] List.Pairwise.nil⟩

/-- C9: because the dedup key is built from the message id and flight
number only, the rows created from one message carry pairwise-distinct
flight numbers — a later leg repeating an earlier leg's flight number is
skipped — and concretely, two legs of one message sharing flight number
`LA123` but differing in airports and instants produce exactly one row,
the one built from the FIRST such leg. -/
theorem duplicate_flight_number_single_insert :
    (∀ (db : List FlightRow) (msgId : String) (legs : List ExtractedLeg),
      ((processLegs db msgId legs).2).Pairwise
        (fun a b => a.flight_number ≠ b.flight_number)) ∧
    processLegs [] ("m7")
        [⟨"LA123", "GRU", "SCL", 0, 100⟩, ⟨"LA123", "SCL", "LIM", 200, 300⟩] =
      ([rowOfLeg ("m7") ⟨"LA123", "GRU", "SCL", 0, 100⟩],
       [rowOfLeg ("m7") ⟨"LA123", "GRU", "SCL", 0, 100⟩]) := by
  constructor
  · intro db msgId legs
    exact created_pairwise_distinct msgId legs db
  · decide

theorem latam_connection_interpolation_witness :
    (extractLatamConnectionLegs ("GRU") ("LIM") ("LA100")
        [⟨"SCL", "LA500", 90⟩] 0 36000).length = 2 :=
  (((latam_connection_interpolation ("GRU") ("LIM") ("LA100")
      [⟨"SCL", "LA500", 90⟩] 0 36000
      (by decide) (by decide) (by decide) (by decide)).2)
    (by norm_num [latamTotalLayover, buildLatamSegments])).1

theorem forwarded_email_unwrap_witness :
    extract_forwarded_email
        (gmailMarker ++ ('\n' :: (("From: ").data ++ (("alice@example.com").data ++ ('\n' ::
          (("Subject: ").data ++ (("Your flight").data ++ ('\n' :: ('\n' ::
            ("BODY").data))))))))) =
      (("alice@example.com").data, ("Your flight").data, ("BODY").data) :=
  (forwarded_email_unwrap (("alice@example.com").data) (("Your flight").data) (("BODY").data)
    (by decide) (by decide) (by decide) (by decide)
    (by decide) (by decide) (by decide) (by decide)).1
